import Mathlib

/-!
Shallow embedding of `cinder/volume/drivers/smbfs.py` (SmbfsDriver), covering
the share placement core: capacity inspection, share eligibility, share
selection, setup-time ratio validation, volume creation dispatch and mount
flag handling.

Python floats are modelled as rationals (`ℚ`); Python's `ZeroDivisionError`
is made explicit by returning `Option`/`Except` values where the source can
divide by zero.  External command invocations (`stat`, `du`, the remote
filesystem client's `mount`) are modelled by their parsed outputs / call
arguments.
-/

namespace Smbfs

/-- Modelled from the spec: `cinder.units.GiB` (the module `cinder/units.py`
is not part of the sources); the spec states
"requested = requested_size_gib * 2^30 bytes". -/
def GiB : ℚ := 1073741824

/-- Python's builtin `max` on two numbers (kernel-reducible, unlike the
`Max ℚ` instance coming from the order structure). -/
def py_max (a b : ℚ) : ℚ := if a ≤ b then b else a

/-- The triple returned by `SmbfsDriver._get_capacity_info`:
`(total_size, total_available, total_allocated)`, in bytes. -/
structure CapacityInfo where
  total_size : ℚ
  total_available : ℚ
  total_allocated : ℚ
deriving Repr, DecidableEq

/-- The slice of driver configuration used by the embedded operations
(`smbfs_used_ratio`, `smbfs_oversub_ratio`, `smbfs_qcow2_volumes`,
`smbfs_sparsed_volumes`). -/
structure Config where
  smbfs_used_ratio : ℚ
  smbfs_oversub_ratio : ℚ
  smbfs_qcow2_volumes : Bool
  smbfs_sparsed_volumes : Bool
deriving Repr, DecidableEq

/-- The exceptions raised by the embedded code paths.
`zeroDivisionError` stands for Python's `ZeroDivisionError` raised by
`/` on a zero denominator; the remaining constructors stand for
`exception.SmbfsException` / `exception.InvalidVolume` /
`exception.SmbfsNoSharesMounted` / `exception.SmbfsNoSuitableShareFound`
and the bare `SmbfsException("Invalid volume type")`. -/
inductive SmbfsError where
  | invalidOversubRatio
  | invalidUsedRatio
  | noSharesMounted
  | noSuitableShareFound (volume_size : ℚ)
  | zeroDivisionError
  | fileAlreadyExists
  | invalidVolumeType
deriving Repr, DecidableEq

/-- `SmbfsDriver._is_share_eligible` (smbfs.py lines 235-273), with the
capacity triple obtained from `_get_capacity_info` passed in as `cap`.
Returns `none` when the source would raise `ZeroDivisionError`, i.e. when
`total_size = 0` reaches the division
`used = (total_size - total_available) / total_size`. -/
def is_share_eligible (cfg : Config) (cap : CapacityInfo)
    (volume_size_in_gib : ℚ) : Option Bool :=
  let used_ratio := cfg.smbfs_used_ratio
  let oversub_ratio := cfg.smbfs_oversub_ratio
  let requested_volume_size := volume_size_in_gib * GiB
  let apparent_size := py_max 0 (cap.total_size * oversub_ratio)
  let apparent_available := py_max 0 (apparent_size - cap.total_allocated)
  if cap.total_size = 0 then
    -- `used = (total_size - total_available) / total_size` raises
    -- ZeroDivisionError in the source: no earlier guard exists.
    none
  else
    let used := (cap.total_size - cap.total_available) / cap.total_size
    if used > used_ratio then some false
    else if apparent_available ≤ requested_volume_size then some false
    else if cap.total_allocated / cap.total_size ≥ oversub_ratio then some false
    else some true

/-- The `for smbfs_share in self._mounted_shares` loop of
`SmbfsDriver._find_share` (smbfs.py lines 214-225).  The accumulator is
`(target_share, target_share_reserved)`, `none` while `target_share is None`.
A `ZeroDivisionError` raised inside `_is_share_eligible` propagates. -/
def find_share_loop {α : Type} (cfg : Config) (getCap : α → CapacityInfo)
    (volume_size_in_gib : ℚ) :
    List α → Option (α × ℚ) → Except SmbfsError (Option (α × ℚ))
  | [], acc => .ok acc
  | smbfs_share :: rest, acc =>
    match is_share_eligible cfg (getCap smbfs_share) volume_size_in_gib with
    | none => .error .zeroDivisionError
    | some false => find_share_loop cfg getCap volume_size_in_gib rest acc
    | some true =>
      let total_allocated := (getCap smbfs_share).total_allocated
      match acc with
      | some (target_share, target_share_reserved) =>
        if target_share_reserved > total_allocated then
          find_share_loop cfg getCap volume_size_in_gib rest
            (some (smbfs_share, total_allocated))
        else
          find_share_loop cfg getCap volume_size_in_gib rest
            (some (target_share, target_share_reserved))
      | none =>
        find_share_loop cfg getCap volume_size_in_gib rest
          (some (smbfs_share, total_allocated))

/-- `SmbfsDriver._find_share` (smbfs.py lines 199-233).  `mounted_shares`
is `self._mounted_shares`; `getCap` models `self._get_capacity_info` as a
per-share pure query (each share's capacity is a consistent snapshot). -/
def find_share {α : Type} (cfg : Config) (mounted_shares : List α)
    (getCap : α → CapacityInfo) (volume_size_in_gib : ℚ) :
    Except SmbfsError α :=
  if mounted_shares.isEmpty then .error .noSharesMounted
  else
    match find_share_loop cfg getCap volume_size_in_gib mounted_shares none with
    | .error e => .error e
    | .ok none => .error (.noSuitableShareFound volume_size_in_gib)
    | .ok (some (target_share, _)) => .ok target_share

/-- The ratio-validation steps of `SmbfsDriver.do_setup`
(smbfs.py lines 119-132), after the config-file existence checks:
`if not smbfs_oversub_ratio > 0: raise` then
`if (not smbfs_used_ratio > 0) and (smbfs_used_ratio <= 1): raise`. -/
def do_setup_ratio_validation (smbfs_oversub_ratio smbfs_used_ratio : ℚ) :
    Except SmbfsError Unit :=
  if ¬ smbfs_oversub_ratio > 0 then .error .invalidOversubRatio
  else if ¬ smbfs_used_ratio > 0 ∧ smbfs_used_ratio ≤ 1 then
    .error .invalidUsedRatio
  else .ok ()

/-- The file kinds `_do_create_volume` can produce, with the creation-call
arguments (path, size in GiB). -/
inductive CreatedFile where
  | vpc (path : String) (size : ℚ)
  | qcow2 (path : String) (size : ℚ)
  | sparsed (path : String) (size : ℚ)
  | regular (path : String) (size : ℚ)
deriving Repr, DecidableEq

/-- `SmbfsDriver._do_create_volume` (smbfs.py lines 159-189).
`path_exists` models `os.path.exists(volume_path)`; `volume_type` is
`volume['volume_type']['name']` when a volume type is present (a truthy
`volume['volume_type']`), `none` otherwise.  The `.ok` payload records
which creation call is made; an `.error` result creates no file. -/
def do_create_volume (cfg : Config) (path_exists : Bool)
    (volume_path : String) (volume_type : Option String) (volume_size : ℚ) :
    Except SmbfsError CreatedFile :=
  if path_exists then .error .fileAlreadyExists
  else
    match volume_type with
    | some tname =>
      if tname = "vpc" ∨ tname = "vhd" ∨ tname = "vhdx" then
        .ok (.vpc volume_path volume_size)
      else .error .invalidVolumeType
    | none =>
      if cfg.smbfs_qcow2_volumes then .ok (.qcow2 volume_path volume_size)
      else if cfg.smbfs_sparsed_volumes then
        .ok (.sparsed volume_path volume_size)
      else .ok (.regular volume_path volume_size)

/-- Python `str.split()` with no argument: split on runs of whitespace,
dropping empty pieces.  Auxiliary accumulator holds the current token
reversed. -/
def py_split_aux : List Char → List Char → List String
  | [], cur => if cur.isEmpty then [] else [String.mk cur.reverse]
  | c :: rest, cur =>
    if c.isWhitespace then
      if cur.isEmpty then py_split_aux rest []
      else String.mk cur.reverse :: py_split_aux rest []
    else py_split_aux rest (c :: cur)

/-- Python `str.split()` with no argument. -/
def py_str_split (s : String) : List String := py_split_aux s.data []

/-- `SmbfsDriver._ensure_share_mounted` (smbfs.py lines 191-197).
`shares` models the `self.shares` dict (`address : options`, where an
entry's options may be Python `None`); the result is the argument pair
`(share, mnt_flags)` passed to `self._remotefsclient.mount`.
`dict.get(k)` returns `None` both for a missing key and for a key mapped
to `None`, hence the `Option.bind id`. -/
def ensure_share_mounted (shares : List (String × Option String))
    (smbfs_share : String) : String × List String :=
  let mnt_flags : List String := []
  match (shares.lookup smbfs_share).bind id with
  | some opts => (smbfs_share, py_str_split opts)
  | none => (smbfs_share, mnt_flags)

/-- One filesystem object under a mount point, as seen by `du`:
its path and its apparent size in bytes. -/
structure FsEntry where
  path : List Char
  apparent_size : ℚ
deriving Repr

/-- Whether a path matches the exclusion glob `*snapshot*` passed to `du`:
the path contains `snapshot` as a substring. -/
def matches_snapshot_glob (p : List Char) : Bool :=
  decide ("snapshot".data <:+: p)

/-- Modelled from the spec: the external command
`du -sb --apparent-size --exclude *snapshot* mount_point` (smbfs.py
lines 293-295); `du` itself is not part of the sources.  Per the spec it
reports apparent-size usage of the mount point's contents "excluding any
path component matching `*snapshot*`": the sum of the apparent sizes of
the entries whose path does not match the glob. -/
def du_apparent_size (entries : List FsEntry) : ℚ :=
  entries.foldr
    (fun e acc =>
      if matches_snapshot_glob e.path then acc else e.apparent_size + acc) 0

/-- The parsed output of `stat -f -c %S %b %a mount_point` (smbfs.py
lines 287-289): `block_size, blocks_total, blocks_avail = map(float, ...)`. -/
structure StatOutput where
  block_size : ℚ
  blocks_total : ℚ
  blocks_avail : ℚ
deriving Repr, DecidableEq

/-- `SmbfsDriver._get_capacity_info` (smbfs.py lines 279-296), with the
outputs of the two external commands passed in: `st` is the parsed
`stat -f` output at the share's mount point and `entries` the filesystem
contents that the `du` invocation walks. -/
def get_capacity_info (st : StatOutput) (entries : List FsEntry) :
    CapacityInfo :=
  let total_available := st.block_size * st.blocks_avail
  let total_size := st.block_size * st.blocks_total
  let total_allocated := du_apparent_size entries
  ⟨total_size, total_available, total_allocated⟩

/-- Reference selection used to state claim C1's tie-breaking clause:
`bestOf alloc l acc` scans `l` keeping the incumbent unless a strictly
smaller `alloc` value appears, so starting from `none` it returns the
first element of `l` attaining the minimal `alloc`. -/
def bestOf {α : Type} (alloc : α → ℚ) : List α → Option α → Option α
  | [], acc => acc
  | s :: rest, acc =>
    match acc with
    | none => bestOf alloc rest (some s)
    | some t =>
      if alloc t > alloc s then bestOf alloc rest (some s)
      else bestOf alloc rest (some t)

/-- `u` is the first element of `l` attaining the minimal `alloc` value:
it occurs in `l`, every element strictly before that occurrence has a
strictly larger `alloc`, and its `alloc` is a lower bound for `l`. -/
def IsFirstMin {α : Type} (alloc : α → ℚ) (l : List α) (u : α) : Prop :=
  (∃ l₁ l₂, l = l₁ ++ u :: l₂ ∧ ∀ s ∈ l₁, alloc u < alloc s) ∧
  ∀ s ∈ l, alloc u ≤ alloc s

/-- The Boolean outcome of `_is_share_eligible` on shares where it does not
raise (used to phrase the filter of eligible shares). -/
def eligB {α : Type} (cfg : Config) (getCap : α → CapacityInfo)
    (volume_size_in_gib : ℚ) (s : α) : Bool :=
  decide (is_share_eligible cfg (getCap s) volume_size_in_gib = some true)

theorem py_max_eq_max (a b : ℚ) : py_max a b = max a b := by
  unfold py_max
  rcases le_total a b with h | h
  · rw [if_pos h, max_eq_right h]
  · rcases eq_or_lt_of_le h with rfl | hlt
    · simp
    · rw [if_neg (not_le.mpr hlt), max_eq_left h]

theorem GiB_eq_two_pow : GiB = 2 ^ 30 := by norm_num [GiB]

/-- C2: for a share whose capacity query reports `total_size > 0`,
`_is_share_eligible` returns `False` whenever
`(total_size - total_available) / total_size > smbfs_used_ratio`, for
every oversubscription ratio, `total_allocated` and requested size: the
used-ratio rejection fires before either oversubscription check. -/
theorem is_share_eligible_used_ratio_rejects (cfg : Config)
    (cap : CapacityInfo) (volume_size_in_gib : ℚ)
    (h0 : 0 < cap.total_size)
    (hused : (cap.total_size - cap.total_available) / cap.total_size >
      cfg.smbfs_used_ratio) :
    is_share_eligible cfg cap volume_size_in_gib = some false := by
  unfold is_share_eligible
  rw [if_neg h0.ne', if_pos hused]

/-- C2 witness: a share with `total_size = 100`, `total_available = 0`
is rejected under `used_ratio = 1/2` even though every oversubscription
quantity would admit it. -/
theorem is_share_eligible_used_ratio_rejects_witness :
    (0 : ℚ) < (CapacityInfo.mk 100 0 0).total_size ∧
      ((CapacityInfo.mk 100 0 0).total_size -
          (CapacityInfo.mk 100 0 0).total_available) /
        (CapacityInfo.mk 100 0 0).total_size >
        (Config.mk (1/2) 1000 false true).smbfs_used_ratio ∧
      is_share_eligible (Config.mk (1/2) 1000 false true)
        (CapacityInfo.mk 100 0 0) 1 = some false :=
  ⟨by decide, by with_unfolding_all decide,
    is_share_eligible_used_ratio_rejects _ _ _ (by decide)
      (by with_unfolding_all decide)⟩

/-- C3: for a share with `total_size > 0` passing the used-ratio check,
`_is_share_eligible` returns `True` iff
`max(0, max(0, total_size * oversub_ratio) - total_allocated)` strictly
exceeds the requested size in bytes (`gib * 2^30`) and
`total_allocated / total_size < oversub_ratio`. -/
theorem is_share_eligible_true_iff (cfg : Config) (cap : CapacityInfo)
    (volume_size_in_gib : ℚ)
    (h0 : 0 < cap.total_size)
    (hused : (cap.total_size - cap.total_available) / cap.total_size ≤
      cfg.smbfs_used_ratio) :
    is_share_eligible cfg cap volume_size_in_gib = some true ↔
      (max 0 (max 0 (cap.total_size * cfg.smbfs_oversub_ratio) -
          cap.total_allocated) > volume_size_in_gib * 2 ^ 30 ∧
        cap.total_allocated / cap.total_size < cfg.smbfs_oversub_ratio) := by
  unfold is_share_eligible
  rw [if_neg h0.ne', if_neg (not_lt.mpr hused), py_max_eq_max, py_max_eq_max,
    ← GiB_eq_two_pow]
  constructor
  · intro h
    by_cases h1 : max 0 (max 0 (cap.total_size * cfg.smbfs_oversub_ratio) -
        cap.total_allocated) ≤ volume_size_in_gib * GiB
    · rw [if_pos h1] at h
      exact absurd h (by simp)
    · rw [if_neg h1] at h
      by_cases h2 : cap.total_allocated / cap.total_size ≥
          cfg.smbfs_oversub_ratio
      · rw [if_pos h2] at h
        exact absurd h (by simp)
      · exact ⟨not_le.mp h1, not_le.mp h2⟩
  · rintro ⟨h1, h2⟩
    rw [if_neg (not_le.mpr h1), if_neg (not_le.mpr h2)]

/-- C3 witness: the spec's worked example — `total_size = 100 GiB`,
`total_available = 10 GiB`, `total_allocated = 80 GiB`,
`used_ratio = 0.95`, `oversub_ratio = 1.2`, requesting 30 GiB — is
eligible, and both conjuncts of the characterization hold. -/
theorem is_share_eligible_true_iff_witness :
    (0 : ℚ) < (CapacityInfo.mk (100 * GiB) (10 * GiB) (80 * GiB)).total_size ∧
      ((CapacityInfo.mk (100 * GiB) (10 * GiB) (80 * GiB)).total_size -
          (CapacityInfo.mk (100 * GiB) (10 * GiB) (80 * GiB)).total_available) /
        (CapacityInfo.mk (100 * GiB) (10 * GiB) (80 * GiB)).total_size ≤
        (Config.mk (19/20) (6/5) false true).smbfs_used_ratio ∧
      (is_share_eligible (Config.mk (19/20) (6/5) false true)
          (CapacityInfo.mk (100 * GiB) (10 * GiB) (80 * GiB)) 30 = some true ↔
        (max 0 (max 0 ((100 * GiB) * (6/5)) - 80 * GiB) > 30 * 2 ^ 30 ∧
          (80 * GiB) / (100 * GiB) < (6/5 : ℚ))) :=
  ⟨by with_unfolding_all decide, by with_unfolding_all decide,
    is_share_eligible_true_iff _ _ _ (by with_unfolding_all decide)
      (by with_unfolding_all decide)⟩

/-- C4: the source's used-ratio validation accepts `smbfs_used_ratio = 2`,
a value outside the documented range `(0, 1]` (the conjunction
`(not used_ratio > 0) and (used_ratio <= 1)` cannot fire for values
above 1), contradicting the claim that setup rejects every
`used_ratio` outside `(0, 1]`. -/
theorem do_setup_accepts_used_ratio_two :
    do_setup_ratio_validation 1 2 = .ok () ∧
      ¬ ((0 : ℚ) < 2 ∧ (2 : ℚ) ≤ 1) :=
  ⟨by with_unfolding_all rfl, by decide⟩

/-- C5: `_find_share` on an empty `_mounted_shares` list raises
`SmbfsNoSharesMounted`, for every configuration, capacity query and
requested size (the result does not depend on `getCap`, so no capacity
query can be consulted). -/
theorem find_share_empty_raises {α : Type} (cfg : Config)
    (getCap : α → CapacityInfo) (volume_size_in_gib : ℚ) :
    find_share cfg ([] : List α) getCap volume_size_in_gib =
      .error .noSharesMounted := rfl

/-- C8: whenever the capacity query reports `total_size = 0`, the
eligibility check reaches the division
`(total_size - total_available) / total_size` with a zero divisor and
raises `ZeroDivisionError` (modelled as `none`), for every configuration,
every other capacity value and every requested size: no earlier guard
rejects the share or fails first. -/
theorem is_share_eligible_zero_total_size (cfg : Config)
    (cap : CapacityInfo) (volume_size_in_gib : ℚ)
    (h : cap.total_size = 0) :
    is_share_eligible cfg cap volume_size_in_gib = none := by
  unfold is_share_eligible
  rw [if_pos h]

/-- C8 witness: a concrete share reporting `total_size = 0` (with
nonzero `total_available` and `total_allocated`) makes the eligibility
check divide by zero. -/
theorem is_share_eligible_zero_total_size_witness :
    (CapacityInfo.mk 0 5 7).total_size = 0 ∧
      is_share_eligible (Config.mk (19/20) 1 false true)
        (CapacityInfo.mk 0 5 7) 3 = none :=
  ⟨rfl, is_share_eligible_zero_total_size _ _ _ rfl⟩

theorem find_share_loop_all_ineligible {α : Type} (cfg : Config)
    (getCap : α → CapacityInfo) (volume_size_in_gib : ℚ) :
    ∀ (l : List α) (acc : Option (α × ℚ)),
      (∀ s ∈ l, is_share_eligible cfg (getCap s) volume_size_in_gib =
        some false) →
      find_share_loop cfg getCap volume_size_in_gib l acc = .ok acc := by
  intro l
  induction l with
  | nil => intro acc _; rfl
  | cons s rest ih =>
    intro acc h
    have hs := h s (List.mem_cons_self s rest)
    simp only [find_share_loop, hs]
    exact ih acc fun t ht => h t (List.mem_cons_of_mem _ ht)

/-- C6: `_find_share` on a non-empty `_mounted_shares` list in which every
share fails `_is_share_eligible` raises `SmbfsNoSuitableShareFound`
carrying the requested volume size. -/
theorem find_share_none_eligible_raises {α : Type} (cfg : Config)
    (mounted_shares : List α) (getCap : α → CapacityInfo)
    (volume_size_in_gib : ℚ)
    (hne : mounted_shares ≠ [])
    (hall : ∀ s ∈ mounted_shares,
      is_share_eligible cfg (getCap s) volume_size_in_gib = some false) :
    find_share cfg mounted_shares getCap volume_size_in_gib =
      .error (.noSuitableShareFound volume_size_in_gib) := by
  unfold find_share
  rw [if_neg (by simpa using hne),
    find_share_loop_all_ineligible cfg getCap volume_size_in_gib
      mounted_shares none hall]

/-- C6 witness: a single fully-used share (`total_available = 0`) under
`used_ratio = 1/2` is ineligible, and `_find_share` for a 1 GiB request
fails with `SmbfsNoSuitableShareFound 1`. -/
theorem find_share_none_eligible_raises_witness :
    (["//host/share"] ≠ ([] : List String)) ∧
      (∀ s ∈ ["//host/share"],
        is_share_eligible (Config.mk (1/2) 1 false true)
          (CapacityInfo.mk 100 0 0) 1 = some false) ∧
      find_share (Config.mk (1/2) 1 false true) ["//host/share"]
        (fun _ => CapacityInfo.mk 100 0 0) 1 =
        .error (.noSuitableShareFound 1) :=
  ⟨by decide, by with_unfolding_all decide,
    find_share_none_eligible_raises _ _ _ _ (by decide)
      (by with_unfolding_all decide)⟩

/-- C9: `_do_create_volume` for a volume with a present `volume_type`
whose name is none of `vpc`, `vhd`, `vhdx` (and whose target path does
not already exist) raises the invalid-volume-type exception, so no
creation call is made (the model only records a creation on `.ok`). -/
theorem do_create_volume_invalid_type (cfg : Config) (volume_path : String)
    (tname : String) (volume_size : ℚ)
    (hname : ¬ (tname = "vpc" ∨ tname = "vhd" ∨ tname = "vhdx")) :
    do_create_volume cfg false volume_path (some tname) volume_size =
      .error .invalidVolumeType := by
  simp only [do_create_volume, Bool.false_eq_true, if_false, if_neg hname]

/-- C9 witness: creating a volume of type `qcow3` fails with the
invalid-volume-type exception. -/
theorem do_create_volume_invalid_type_witness :
    ¬ (("qcow3" = "vpc") ∨ ("qcow3" = "vhd") ∨ ("qcow3" = "vhdx")) ∧
      do_create_volume (Config.mk (19/20) 1 false true) false
        "/mnt/share/volume-1" (some "qcow3") 1 =
        .error .invalidVolumeType :=
  ⟨by decide, do_create_volume_invalid_type _ _ _ _ (by decide)⟩

/-- C10: `_ensure_share_mounted` always calls the remote-filesystem
client's `mount` with the share itself; the flags are the
whitespace-split tokens of the share's options string when the `shares`
map holds a non-`None` entry for it, and `[]` when the share is absent
from the map or mapped to `None` (an unknown share is not an error). -/
theorem ensure_share_mounted_mount_args
    (shares : List (String × Option String)) (smbfs_share : String) :
    (ensure_share_mounted shares smbfs_share).1 = smbfs_share ∧
      (∀ opts, (shares.lookup smbfs_share).bind id = some opts →
        (ensure_share_mounted shares smbfs_share).2 = py_str_split opts) ∧
      ((shares.lookup smbfs_share).bind id = none →
        (ensure_share_mounted shares smbfs_share).2 = []) := by
  unfold ensure_share_mounted
  refine ⟨?_, ?_, ?_⟩
  · cases h : (shares.lookup smbfs_share).bind id <;> simp [h]
  · intro opts h
    rw [h]
  · intro h
    rw [h]

/-- C10 witness: a share with options `"-o rw"` is mounted with flags
`["-o", "rw"]`; a share absent from the map and a share mapped to `None`
are both mounted with `[]`. -/
theorem ensure_share_mounted_mount_args_witness :
    (ensure_share_mounted [("//h/a", some " -o  rw "), ("//h/b", none)]
        "//h/a").2 = ["-o", "rw"] ∧
      (ensure_share_mounted [("//h/a", some " -o  rw "), ("//h/b", none)]
        "//h/b").2 = [] ∧
      (ensure_share_mounted [("//h/a", some " -o  rw "), ("//h/b", none)]
        "//h/c").2 = [] :=
  ⟨((ensure_share_mounted_mount_args _ _).2.1 " -o  rw " (by decide)).trans
      (by decide),
    (ensure_share_mounted_mount_args _ _).2.2 (by decide),
    (ensure_share_mounted_mount_args _ _).2.2 (by decide)⟩

theorem du_apparent_size_eq_sum (entries : List FsEntry) :
    du_apparent_size entries =
      ((entries.filter fun e => ! matches_snapshot_glob e.path).map
        FsEntry.apparent_size).sum := by
  induction entries with
  | nil => rfl
  | cons e rest ih =>
    by_cases h : matches_snapshot_glob e.path <;>
      simp [du_apparent_size, List.filter_cons, h, ih, du_apparent_size] <;>
      simp [du_apparent_size] at ih <;> rw [ih]

/-- C7: `_get_capacity_info` returns the triple whose `total_size` is
`block_size * total_blocks` and `total_available` is
`block_size * available_blocks` from the `stat -f` output at the share's
mount point, and whose `total_allocated` is the sum of the apparent
sizes of the mount point's contents with every path matching
`*snapshot*` excluded. -/
theorem get_capacity_info_spec (st : StatOutput) (entries : List FsEntry) :
    get_capacity_info st entries =
      ⟨st.block_size * st.blocks_total, st.block_size * st.blocks_avail,
        ((entries.filter fun e => ! matches_snapshot_glob e.path).map
          FsEntry.apparent_size).sum⟩ := by
  unfold get_capacity_info
  rw [du_apparent_size_eq_sum]

theorem is_share_eligible_isSome (cfg : Config) (cap : CapacityInfo)
    (volume_size_in_gib : ℚ) (h : cap.total_size ≠ 0) :
    ∃ b, is_share_eligible cfg cap volume_size_in_gib = some b := by
  simp only [is_share_eligible]
  rw [if_neg h]
  split_ifs <;> exact ⟨_, rfl⟩

theorem eligB_eq_true_iff {α : Type} (cfg : Config)
    (getCap : α → CapacityInfo) (volume_size_in_gib : ℚ) (s : α) :
    eligB cfg getCap volume_size_in_gib s = true ↔
      is_share_eligible cfg (getCap s) volume_size_in_gib = some true := by
  simp [eligB]

theorem filter_decomp {α : Type} (p : α → Bool) :
    ∀ (l f₁ f₂ : List α) (u : α), l.filter p = f₁ ++ u :: f₂ →
      ∃ l₁ l₂, l = l₁ ++ u :: l₂ ∧ l₁.filter p = f₁ := by
  intro l
  induction l with
  | nil =>
    intro f₁ f₂ u h
    exact absurd h (by simp)
  | cons a t ih =>
    intro f₁ f₂ u h
    by_cases hpa : p a
    · rw [List.filter_cons_of_pos hpa] at h
      cases f₁ with
      | nil =>
        rw [List.nil_append] at h
        injection h with h1 h2
        exact ⟨[], t, by rw [h1, List.nil_append], rfl⟩
      | cons b f₁' =>
        rw [List.cons_append] at h
        injection h with h1 h2
        obtain ⟨l₁, l₂, rfl, hf⟩ := ih f₁' f₂ u h2
        exact ⟨a :: l₁, l₂, rfl,
          by rw [List.filter_cons_of_pos hpa, hf, h1]⟩
    · rw [List.filter_cons_of_neg (by simpa using hpa)] at h
      obtain ⟨l₁, l₂, rfl, hf⟩ := ih f₁ f₂ u h
      exact ⟨a :: l₁, l₂, rfl,
        by rw [List.filter_cons_of_neg (by simpa using hpa), hf]⟩

theorem bestOf_some {α : Type} (alloc : α → ℚ) :
    ∀ (l : List α) (t : α), ∃ u, bestOf alloc l (some t) = some u ∧
      IsFirstMin alloc (t :: l) u := by
  intro l
  induction l with
  | nil =>
    intro t
    exact ⟨t, rfl, ⟨⟨[], [], rfl, by simp⟩, by simp⟩⟩
  | cons s rest ih =>
    intro t
    by_cases hc : alloc t > alloc s
    · obtain ⟨u, hu, ⟨⟨a, b, hab, ha⟩, hmin⟩⟩ := ih s
      have hus : alloc u ≤ alloc s := hmin s (by simp)
      refine ⟨u, ?_, ⟨⟨t :: a, b, ?_, ?_⟩, ?_⟩⟩
      · simp only [bestOf]
        rw [if_pos hc]
        exact hu
      · rw [List.cons_append, hab]
      · intro x hx
        rcases List.mem_cons.mp hx with rfl | hxa
        · exact lt_of_le_of_lt hus hc
        · exact ha x hxa
      · intro x hx
        rcases List.mem_cons.mp hx with rfl | hxr
        · exact le_of_lt (lt_of_le_of_lt hus hc)
        · exact hmin x hxr
    · obtain ⟨u, hu, ⟨⟨a, b, hab, ha⟩, hmin⟩⟩ := ih t
      have hts : alloc t ≤ alloc s := not_lt.mp hc
      have hbest : bestOf alloc (s :: rest) (some t) =
          bestOf alloc rest (some t) := by
        simp only [bestOf]
        rw [if_neg hc]
      cases a with
      | nil =>
        rw [List.nil_append] at hab
        injection hab with h1 h2
        subst h1
        refine ⟨t, by rw [hbest]; exact hu, ⟨⟨[], s :: rest, rfl, by simp⟩, ?_⟩⟩
        intro x hx
        rcases List.mem_cons.mp hx with rfl | hxr
        · exact le_refl _
        rcases List.mem_cons.mp hxr with rfl | hxr'
        · exact hts
        · exact hmin x (List.mem_cons_of_mem _ hxr')
      | cons t' a' =>
        rw [List.cons_append] at hab
        injection hab with h1 h2
        subst h1
        have hut : alloc u < alloc t := ha t (by simp)
        refine ⟨u, by rw [hbest]; exact hu, ⟨⟨t :: s :: a', b, ?_, ?_⟩, ?_⟩⟩
        · rw [h2]
          rfl
        · intro x hx
          rcases List.mem_cons.mp hx with rfl | hx'
          · exact hut
          rcases List.mem_cons.mp hx' with rfl | hx''
          · exact lt_of_lt_of_le hut hts
          · exact ha x (List.mem_cons_of_mem _ hx'')
        · intro x hx
          rcases List.mem_cons.mp hx with rfl | hx'
          · exact le_of_lt hut
          rcases List.mem_cons.mp hx' with rfl | hx''
          · exact le_of_lt (lt_of_lt_of_le hut hts)
          · exact hmin x (List.mem_cons_of_mem _ hx'')

theorem find_share_loop_eq_bestOf {α : Type} (cfg : Config)
    (getCap : α → CapacityInfo) (volume_size_in_gib : ℚ) :
    ∀ (l : List α) (acc : Option α),
      (∀ s ∈ l, (getCap s).total_size ≠ 0) →
      find_share_loop cfg getCap volume_size_in_gib l
          (acc.map fun t => (t, (getCap t).total_allocated)) =
        .ok ((bestOf (fun s => (getCap s).total_allocated)
            (l.filter (eligB cfg getCap volume_size_in_gib)) acc).map
          fun t => (t, (getCap t).total_allocated)) := by
  intro l
  induction l with
  | nil =>
    intro acc _
    rfl
  | cons s rest ih =>
    intro acc h
    obtain ⟨b, hb⟩ :=
      is_share_eligible_isSome cfg (getCap s) volume_size_in_gib
        (h s (by simp))
    have hrest : ∀ x ∈ rest, (getCap x).total_size ≠ 0 :=
      fun x hx => h x (by simp [hx])
    cases b with
    | false =>
      have he : eligB cfg getCap volume_size_in_gib s = false := by
        simp [eligB, hb]
      simp only [find_share_loop, hb, List.filter_cons, he, if_false,
        Bool.false_eq_true]
      exact ih acc hrest
    | true =>
      have he : eligB cfg getCap volume_size_in_gib s = true := by
        simp [eligB, hb]
      simp only [find_share_loop, hb, List.filter_cons, he, if_true]
      cases acc with
      | none =>
        simpa only [Option.map_none', Option.map_some', bestOf] using
          ih (some s) hrest
      | some t =>
        by_cases hlt :
            (getCap t).total_allocated > (getCap s).total_allocated
        · simp only [Option.map_some', if_pos hlt, bestOf]
          simpa only [Option.map_some'] using ih (some s) hrest
        · simp only [Option.map_some', if_neg hlt, bestOf]
          simpa only [Option.map_some'] using ih (some t) hrest

/-- C1: on a mounted-share list whose members all report nonzero
`total_size` and at least one of which is eligible, `_find_share`
returns an eligible share `u` whose `total_allocated` is minimal among
all eligible shares, and `u` is the first such share in iteration
order: every eligible share strictly before it has strictly larger
`total_allocated`. -/
theorem find_share_selects_least_allocated {α : Type} (cfg : Config)
    (mounted_shares : List α) (getCap : α → CapacityInfo)
    (volume_size_in_gib : ℚ)
    (hdef : ∀ s ∈ mounted_shares, (getCap s).total_size ≠ 0)
    (hex : ∃ s ∈ mounted_shares,
      is_share_eligible cfg (getCap s) volume_size_in_gib = some true) :
    ∃ u, find_share cfg mounted_shares getCap volume_size_in_gib = .ok u ∧
      is_share_eligible cfg (getCap u) volume_size_in_gib = some true ∧
      (∀ s ∈ mounted_shares,
        is_share_eligible cfg (getCap s) volume_size_in_gib = some true →
        (getCap u).total_allocated ≤ (getCap s).total_allocated) ∧
      ∃ l₁ l₂, mounted_shares = l₁ ++ u :: l₂ ∧
        ∀ s ∈ l₁,
          is_share_eligible cfg (getCap s) volume_size_in_gib = some true →
          (getCap u).total_allocated < (getCap s).total_allocated := by
  obtain ⟨s₀, hs₀, he₀⟩ := hex
  have hs₀f : s₀ ∈ mounted_shares.filter (eligB cfg getCap volume_size_in_gib) :=
    List.mem_filter.mpr ⟨hs₀, (eligB_eq_true_iff _ _ _ _).mpr he₀⟩
  cases hf : mounted_shares.filter (eligB cfg getCap volume_size_in_gib) with
  | nil =>
    rw [hf] at hs₀f
    exact absurd hs₀f (by simp)
  | cons f fs =>
    obtain ⟨u, hu, ⟨⟨a, b, hab, ha⟩, hmin⟩⟩ :=
      bestOf_some (fun s => (getCap s).total_allocated) fs f
    have hloop := find_share_loop_eq_bestOf cfg getCap volume_size_in_gib
      mounted_shares none hdef
    rw [hf] at hloop
    simp only [Option.map_none', bestOf, hu, Option.map_some'] at hloop
    have hufilter : u ∈
        mounted_shares.filter (eligB cfg getCap volume_size_in_gib) := by
      rw [hf, hab]
      simp
    have huelig :
        is_share_eligible cfg (getCap u) volume_size_in_gib = some true :=
      (eligB_eq_true_iff _ _ _ _).mp (List.mem_filter.mp hufilter).2
    refine ⟨u, ?_, huelig, ?_, ?_⟩
    · unfold find_share
      rw [if_neg (by simpa using List.ne_nil_of_mem hs₀), hloop]
    · intro s hs hse
      have : s ∈ mounted_shares.filter (eligB cfg getCap volume_size_in_gib) :=
        List.mem_filter.mpr ⟨hs, (eligB_eq_true_iff _ _ _ _).mpr hse⟩
      rw [hf] at this
      exact hmin s this
    · obtain ⟨l₁, l₂, rfl, hfl₁⟩ :=
        filter_decomp (eligB cfg getCap volume_size_in_gib) mounted_shares
          a b u (by rw [hf, hab])
      refine ⟨l₁, l₂, rfl, ?_⟩
      intro s hs hse
      refine ha s ?_
      rw [← hfl₁]
      exact List.mem_filter.mpr ⟨hs, (eligB_eq_true_iff _ _ _ _).mpr hse⟩

/-- Capacity snapshots for the C1 witness: shares `A`, `B`, `C` with
`total_allocated` of 10, 5, 5 GiB respectively (the spec's tie example). -/
def getCapABC : String → CapacityInfo := fun s =>
  if s = "A" then ⟨100 * GiB, 90 * GiB, 10 * GiB⟩
  else if s = "B" then ⟨100 * GiB, 90 * GiB, 5 * GiB⟩
  else ⟨100 * GiB, 90 * GiB, 5 * GiB⟩

/-- C1 witness: the spec's example — shares `A` (allocated 10), `B`
(allocated 5), `C` (allocated 5), all eligible for a 1 GiB request. -/
theorem find_share_selects_least_allocated_witness :
    (∀ s ∈ ["A", "B", "C"], (getCapABC s).total_size ≠ 0) ∧
      (∃ s ∈ ["A", "B", "C"],
        is_share_eligible (Config.mk (19/20) 1 false true) (getCapABC s) 1 =
          some true) ∧
      ∃ u, find_share (Config.mk (19/20) 1 false true) ["A", "B", "C"]
          getCapABC 1 = .ok u ∧
        is_share_eligible (Config.mk (19/20) 1 false true) (getCapABC u) 1 =
          some true ∧
        (∀ s ∈ ["A", "B", "C"],
          is_share_eligible (Config.mk (19/20) 1 false true) (getCapABC s) 1 =
            some true →
          (getCapABC u).total_allocated ≤ (getCapABC s).total_allocated) ∧
        ∃ l₁ l₂, ["A", "B", "C"] = l₁ ++ u :: l₂ ∧
          ∀ s ∈ l₁,
            is_share_eligible (Config.mk (19/20) 1 false true) (getCapABC s)
              1 = some true →
            (getCapABC u).total_allocated < (getCapABC s).total_allocated :=
  ⟨by with_unfolding_all decide, by with_unfolding_all decide,
    find_share_selects_least_allocated _ _ _ _
      (by with_unfolding_all decide) (by with_unfolding_all decide)⟩

end Smbfs
